import Mathlib

/-!
# Verification of the `cache-rainbow` FIFO file cache

A shallow embedding of `storage/src/lib.rs`: a fixed-capacity, file-backed,
FIFO page cache.  The Rust code keeps a vector of per-page version counters
(`AtomicU64`), a write cursor `(write_page_id, write_offset)` and a write
file handle with a kernel-maintained position.  In the embedding the shared
`Arc<[PageVersion]>` and the `WriteManger` guarded by the facade's mutex
collapse into a single pure state record, and `u64` counters are modelled as
`Nat` (the source relies on `fetch_add` never wrapping; the spec states that
u64 overflow is out of scope, so versions are treated as unbounded
monotonic counters).  The backing file is a total byte store `Nat → Nat`;
file-length/EOF behaviour of `read_exact`, which only matters for fabricated
receipts pointing at never-written regions, is not modelled.  Panics
(`assert!`, `expect`) surface as `Option.none` in the outer layer of each
fallible operation.
-/

set_option autoImplicit false

namespace Rainbow

/-- The write receipt returned by `write` (`WriteResponse` in the source):
`{page_id, page_offset, version, length}`. -/
structure WriteResponse where
  page_id : Nat
  page_offset : Nat
  version : Nat
  length : Nat
deriving DecidableEq

/-- The full cache state.  In the source this is `FifoFileCache` together
with its mutex-guarded `WriteManger`; both hold the same `Arc` to the page
version vector, so the embedding merges them.  `filePos` is the
kernel-maintained position of the long-lived write handle, `file` the byte
content of the backing file. -/
structure FifoFileCache where
  pages : List Nat
  page_size : Nat
  write_page_id : Nat
  write_offset : Nat
  filePos : Nat
  file : Nat → Nat

instance : Inhabited WriteResponse := ⟨⟨0, 0, 0, 0⟩⟩

instance : Inhabited FifoFileCache :=
  ⟨{ pages := [], page_size := 0, write_page_id := 0, write_offset := 0,
     filePos := 0, file := fun _ => 0 }⟩

/-- Overwrite `data.length` bytes of the byte store `f` starting at `pos`
(the effect of `file.write_all(&data)` at position `pos`). -/
def writeBytes (f : Nat → Nat) (pos : Nat) (data : List Nat) : Nat → Nat :=
  fun i => if pos ≤ i ∧ i < pos + data.length then data.getD (i - pos) 0 else f i

/-- `WriteManger::write_move` from the source: if the value does not fit in
the current page, evict the next page — bump `versions[next]`, move the
cursor to `(next, 0)` and seek the write handle to `next * page_size`. -/
def write_move (s : FifoFileCache) (value_size : Nat) : FifoFileCache :=
  if s.page_size < s.write_offset + value_size then
    let next_page_id := (s.write_page_id + 1) % s.pages.length
    { s with
      pages := s.pages.set next_page_id (s.pages.getD next_page_id 0 + 1),
      write_page_id := next_page_id,
      write_offset := 0,
      filePos := next_page_id * s.page_size }
  else s

/-- `WriteManger::write_data` from the source: write the serialized bytes at
the current file position, build the receipt from the current cursor and the
current version of the write page, then advance `write_offset`. -/
def write_data (s : FifoFileCache) (data : List Nat) : FifoFileCache × WriteResponse :=
  let data_len := data.length
  let response : WriteResponse :=
    { page_id := s.write_page_id,
      page_offset := s.write_offset,
      version := s.pages.getD s.write_page_id 0,
      length := data_len }
  ({ s with
      file := writeBytes s.file s.filePos data,
      filePos := s.filePos + data_len,
      write_offset := s.write_offset + data_len },
   response)

/-- `FifoFileCache::write` after serialization: the `assert!(length <= page_size)`
is the outer `Option` (`none` models the panic), then `write_move` followed by
`write_data` under the writer mutex. -/
def writeRaw (s : FifoFileCache) (data : List Nat) :
    Option (FifoFileCache × WriteResponse) :=
  if data.length ≤ s.page_size then
    some (write_data (write_move s data.length) data)
  else
    none

/-- Modelled from the spec: the serialization capability of §4.4 (`bincode`
plus serde's `Serialize`/`DeserializeOwned` in the source, which live outside
this repository).  The encoding is deterministic and round-trippable. -/
structure Codec (V : Type) where
  serialize : V → List Nat
  deserialize : List Nat → Option V
  round_trip : ∀ v, deserialize (serialize v) = some v

/-- `FifoFileCache::write`: serialize the value and hand the bytes to the
write manager. -/
def write {V : Type} (c : Codec V) (s : FifoFileCache) (v : V) :
    Option (FifoFileCache × WriteResponse) :=
  writeRaw s (c.serialize v)

/-- The geometry assertions at the top of `FifoFileCache::read`. -/
def geomOK (s : FifoFileCache) (r : WriteResponse) : Prop :=
  r.length ≤ s.page_size ∧
  r.page_id < s.pages.length ∧
  r.page_offset + r.length ≤ s.page_size

instance (s : FifoFileCache) (r : WriteResponse) : Decidable (geomOK s r) :=
  inferInstanceAs (Decidable (_ ∧ _ ∧ _))

/-- The buffer `read` fills: `length` bytes starting at
`page_id * page_size + page_offset`. -/
def readBuffer (s : FifoFileCache) (r : WriteResponse) : List Nat :=
  (List.range r.length).map fun i =>
    s.file (r.page_id * s.page_size + r.page_offset + i)

/-- `FifoFileCache::read`.  Result layers: `none` is a panic (failed assert
or failed deserialization), `some none` is a miss (version mismatch),
`some (some v)` is a hit.  The version of the target page is loaded after
the bytes are read and compared with the receipt's version. -/
def read {V : Type} (c : Codec V) (s : FifoFileCache) (r : WriteResponse) :
    Option (Option V) :=
  if geomOK s r then
    let buffer := readBuffer s r
    let page_version := s.pages.getD r.page_id 0
    if page_version ≠ r.version then
      some none
    else
      match c.deserialize buffer with
      | some v => some (some v)
      | none => none
  else
    none

/-- `FifoFileCache::new`: the three `assert!`s are the outer `Option`; on
success all page versions start at 0 and the cursor at `(0, 0)`.  The backing
file is opened fresh (opening itself is assumed to succeed; reads of
never-written regions are undefined, modelled as zero bytes). -/
def new (page_size capacity : Nat) : Option FifoFileCache :=
  if 0 < page_size ∧ capacity % page_size = 0 ∧ page_size < capacity then
    some { pages := List.replicate (capacity / page_size) 0,
           page_size := page_size,
           write_page_id := 0,
           write_offset := 0,
           filePos := 0,
           file := fun _ => 0 }
  else
    none

/-- Run a sequence of raw writes (arbitrary serialized payloads, possibly of
different value types), threading the state; `none` if any write panics. -/
def writeRawList (s : FifoFileCache) : List (List Nat) → Option FifoFileCache
  | [] => some s
  | d :: ds =>
    match writeRaw s d with
    | some (s', _) => writeRawList s' ds
    | none => none

/-- Well-formedness of a cache state: at least one page, the cursor inside
the page array and inside the current page, and the write handle's position
at the cursor's physical offset. -/
abbrev WF (s : FifoFileCache) : Prop :=
  0 < s.pages.length ∧
  s.write_page_id < s.pages.length ∧
  s.write_offset ≤ s.page_size ∧
  s.filePos = s.write_page_id * s.page_size + s.write_offset

/-- Little-endian byte encoding of a natural number on `k` bytes
(the shape `bincode` gives a `u64` with its default fixed-int encoding). -/
def toLE : Nat → Nat → List Nat
  | 0, _ => []
  | k + 1, n => n % 256 :: toLE k (n / 256)

/-- Little-endian byte decoding. -/
def fromLE : List Nat → Nat
  | [] => 0
  | b :: bs => b + 256 * fromLE bs

lemma length_toLE (k n : Nat) : (toLE k n).length = k := by
  induction k generalizing n with
  | zero => rfl
  | succ k ih => simp [toLE, ih]

lemma fromLE_toLE (k n : Nat) : fromLE (toLE k n) = n % 256 ^ k := by
  induction k generalizing n with
  | zero => simp [toLE, fromLE, Nat.mod_one]
  | succ k ih =>
    rw [toLE, fromLE, ih, pow_succ']
    exact (Nat.mod_mul).symm

/-- Modelled from the spec: `bincode` deserialization of a `u64` — exactly
8 little-endian bytes. -/
def u64Deserialize (bs : List Nat) : Option (Fin (2 ^ 64)) :=
  if h : bs.length = 8 ∧ fromLE bs < 2 ^ 64 then some ⟨fromLE bs, h.2⟩ else none

/-- Modelled from the spec: the `bincode` codec for `u64` values (the
`TestValue { value: u64 }` of the source's test serializes to its 8-byte
little-endian payload). -/
def u64Codec : Codec (Fin (2 ^ 64)) where
  serialize v := toLE 8 v.val
  deserialize := u64Deserialize
  round_trip := by
    intro v
    have h256 : (256 : Nat) ^ 8 = 2 ^ 64 := by norm_num
    have h2 : fromLE (toLE 8 v.val) = v.val := by
      rw [fromLE_toLE, h256]
      exact Nat.mod_eq_of_lt v.isLt
    have hlt : fromLE (toLE 8 v.val) < 2 ^ 64 := by rw [h2]; exact v.isLt
    have hc : (toLE 8 v.val).length = 8 ∧ fromLE (toLE 8 v.val) < 2 ^ 64 :=
      ⟨length_toLE 8 v.val, hlt⟩
    show u64Deserialize (toLE 8 v.val) = some v
    rw [u64Deserialize, dif_pos hc]
    exact congrArg some (Fin.eq_of_val_eq h2)

lemma getD_set_self {l : List Nat} {i : Nat} (a : Nat) (h : i < l.length) :
    (l.set i a).getD i 0 = a := by
  induction l generalizing i with
  | nil => simp at h
  | cons b t ih =>
    cases i with
    | zero => rfl
    | succ i => exact ih (Nat.lt_of_succ_lt_succ h)

lemma getD_set_ne (l : List Nat) (i j a : Nat) (h : i ≠ j) :
    (l.set i a).getD j 0 = l.getD j 0 := by
  induction l generalizing i j with
  | nil => rfl
  | cons b t ih =>
    cases i with
    | zero =>
      cases j with
      | zero => exact absurd rfl h
      | succ j => rfl
    | succ i =>
      cases j with
      | zero => rfl
      | succ j => exact ih i j fun hij => h (congrArg Nat.succ hij)

lemma writeBytes_inside (f : Nat → Nat) (pos : Nat) (data : List Nat) {i : Nat}
    (h : i < data.length) : writeBytes f pos data (pos + i) = data.getD i 0 := by
  rw [writeBytes, if_pos ⟨Nat.le_add_right pos i, by omega⟩, Nat.add_sub_cancel_left]

lemma writeBytes_outside (f : Nat → Nat) (pos : Nat) (data : List Nat) {i : Nat}
    (h : i < pos ∨ pos + data.length ≤ i) : writeBytes f pos data i = f i := by
  rw [writeBytes, if_neg (by omega)]

lemma range_map_getD (l : List Nat) :
    (List.range l.length).map (fun i => l.getD i 0) = l := by
  induction l with
  | nil => rfl
  | cons a t ih =>
    rw [List.length_cons, List.range_succ_eq_map, List.map_cons, List.map_map]
    simp only [Function.comp_def, List.getD_cons_zero, List.getD_cons_succ]
    rw [ih]

lemma range_map_congr {n : Nat} {f g : Nat → Nat} (h : ∀ i, i < n → f i = g i) :
    (List.range n).map f = (List.range n).map g := by
  apply List.map_congr_left
  intro i hi
  exact h i (List.mem_range.mp hi)

lemma write_move_of_fit {s : FifoFileCache} {n : Nat}
    (h : ¬ s.page_size < s.write_offset + n) : write_move s n = s := by
  rw [write_move, if_neg h]

lemma write_move_of_over {s : FifoFileCache} {n : Nat}
    (h : s.page_size < s.write_offset + n) :
    write_move s n =
      { s with
        pages := s.pages.set ((s.write_page_id + 1) % s.pages.length)
          (s.pages.getD ((s.write_page_id + 1) % s.pages.length) 0 + 1),
        write_page_id := (s.write_page_id + 1) % s.pages.length,
        write_offset := 0,
        filePos := ((s.write_page_id + 1) % s.pages.length) * s.page_size } := by
  rw [write_move, if_pos h]

lemma write_move_page_size (s : FifoFileCache) (n : Nat) :
    (write_move s n).page_size = s.page_size := by
  rw [write_move]; split <;> rfl

lemma write_move_file (s : FifoFileCache) (n : Nat) :
    (write_move s n).file = s.file := by
  rw [write_move]; split <;> rfl

lemma write_move_pages_length (s : FifoFileCache) (n : Nat) :
    (write_move s n).pages.length = s.pages.length := by
  rw [write_move]; split
  · exact List.length_set ..
  · rfl

lemma write_move_wpid_lt {s : FifoFileCache} (hpos : 0 < s.pages.length)
    (hwid : s.write_page_id < s.pages.length) (n : Nat) :
    (write_move s n).write_page_id < s.pages.length := by
  rw [write_move]; split
  · exact Nat.mod_lt _ hpos
  · exact hwid

lemma write_move_pages_mono {s : FifoFileCache} (hpos : 0 < s.pages.length)
    (n i : Nat) : s.pages.getD i 0 ≤ (write_move s n).pages.getD i 0 := by
  rw [write_move]; split
  · dsimp only
    by_cases hi : (s.write_page_id + 1) % s.pages.length = i
    · subst hi
      rw [getD_set_self _ (Nat.mod_lt _ hpos)]
      exact Nat.le_succ _
    · rw [getD_set_ne _ _ _ _ hi]
  · exact le_refl _

lemma write_move_WF {s : FifoFileCache} {n : Nat} (hWF : WF s) (hn : n ≤ s.page_size) :
    WF (write_move s n) ∧ (write_move s n).write_offset + n ≤ s.page_size := by
  obtain ⟨hpos, hwid, hoff, hfp⟩ := hWF
  by_cases hadv : s.page_size < s.write_offset + n
  · rw [write_move_of_over hadv]
    refine ⟨⟨?_, ?_, ?_, ?_⟩, ?_⟩ <;> dsimp only
    · rw [List.length_set]; exact hpos
    · rw [List.length_set]; exact Nat.mod_lt _ hpos
    · exact Nat.zero_le _
    · omega
    · omega
  · rw [write_move_of_fit hadv]
    exact ⟨⟨hpos, hwid, hoff, hfp⟩, by omega⟩

lemma write_data_fst (s : FifoFileCache) (data : List Nat) :
    (write_data s data).1 =
      { s with
        file := writeBytes s.file s.filePos data,
        filePos := s.filePos + data.length,
        write_offset := s.write_offset + data.length } := rfl

lemma write_data_snd (s : FifoFileCache) (data : List Nat) :
    (write_data s data).2 =
      { page_id := s.write_page_id,
        page_offset := s.write_offset,
        version := s.pages.getD s.write_page_id 0,
        length := data.length } := rfl

lemma writeRaw_eq {s : FifoFileCache} {data : List Nat} (h : data.length ≤ s.page_size) :
    writeRaw s data = some (write_data (write_move s data.length) data) := by
  rw [writeRaw, if_pos h]

lemma writeRaw_length_le {s : FifoFileCache} {data : List Nat}
    {p : FifoFileCache × WriteResponse} (h : writeRaw s data = some p) :
    data.length ≤ s.page_size := by
  by_cases hl : data.length ≤ s.page_size
  · exact hl
  · rw [writeRaw, if_neg hl] at h
    exact absurd h (by simp)

/-- Everything a single successful raw write does, relative to a well-formed
pre-state: the advance is `write_move`, the receipt records the post-advance
cursor and the current version of the post-advance page, the bytes land at
the receipt's physical offset, and well-formedness is preserved. -/
lemma writeRaw_spec {s : FifoFileCache} {data : List Nat}
    (hWF : WF s) (hlen : data.length ≤ s.page_size) :
    ∃ s' r, writeRaw s data = some (s', r) ∧
      WF s' ∧
      s'.page_size = s.page_size ∧
      s'.pages.length = s.pages.length ∧
      s'.pages = (write_move s data.length).pages ∧
      s'.write_page_id = (write_move s data.length).write_page_id ∧
      r.page_id = s'.write_page_id ∧
      r.page_offset = (write_move s data.length).write_offset ∧
      r.length = data.length ∧
      r.version = s'.pages.getD r.page_id 0 ∧
      r.page_offset + r.length ≤ s.page_size ∧
      s'.write_offset = r.page_offset + data.length ∧
      s'.file = writeBytes s.file (r.page_id * s.page_size + r.page_offset) data := by
  obtain ⟨hmvWF, h1fit⟩ := write_move_WF hWF hlen
  obtain ⟨h1pos, h1wid, h1off, h1fp⟩ := hmvWF
  have hps := write_move_page_size s data.length
  have hfile := write_move_file s data.length
  have hplen := write_move_pages_length s data.length
  refine ⟨(write_data (write_move s data.length) data).1,
          (write_data (write_move s data.length) data).2,
          writeRaw_eq hlen, ?_⟩
  rw [write_data_fst, write_data_snd]
  dsimp only
  refine ⟨⟨?_, ?_, ?_, ?_⟩, hps, hplen, rfl, rfl, rfl, rfl, rfl, rfl, h1fit, rfl, ?_⟩
  · exact h1pos
  · exact h1wid
  · rw [hps]; exact h1fit
  · dsimp only; omega
  · rw [hfile, h1fp, hps]

/-- Preservation of well-formedness, geometry and version monotonicity
along an arbitrary sequence of writes. -/
lemma writeRawList_pres {ds : List (List Nat)} {s s' : FifoFileCache}
    (hWF : WF s) (h : writeRawList s ds = some s') :
    WF s' ∧ s'.page_size = s.page_size ∧ s'.pages.length = s.pages.length ∧
    ∀ i, s.pages.getD i 0 ≤ s'.pages.getD i 0 := by
  induction ds generalizing s with
  | nil =>
    rw [writeRawList] at h
    cases h
    exact ⟨hWF, rfl, rfl, fun i => le_refl _⟩
  | cons d ds ih =>
    rw [writeRawList] at h
    cases hw : writeRaw s d with
    | none => rw [hw] at h; cases h
    | some p =>
      obtain ⟨s1, r⟩ := p
      rw [hw] at h
      have hlen := writeRaw_length_le hw
      obtain ⟨s1', r', heq, hWF1, hps1, hplen1, hpages1, -, -, -, -, -, -, -⟩ :=
        writeRaw_spec hWF hlen
      rw [hw, Option.some.injEq, Prod.mk.injEq] at heq
      obtain ⟨h1, -⟩ := heq
      subst h1
      obtain ⟨hWF', hps', hplen', hmono'⟩ := ih hWF1 h
      refine ⟨hWF', hps'.trans hps1, hplen'.trans hplen1, fun i => ?_⟩
      refine le_trans ?_ (hmono' i)
      rw [hpages1]
      exact write_move_pages_mono hWF.1 d.length i

lemma getD_replicate (n i : Nat) : (List.replicate n (0 : Nat)).getD i 0 = 0 := by
  induction n generalizing i with
  | zero => rfl
  | succ n ih =>
    cases i with
    | zero => rfl
    | succ i => exact ih i

/-- What a successful construction guarantees: a well-formed state with at
least two pages, cursor `(0, 0)` and all versions zero. -/
lemma new_spec {ps cap : Nat} {s0 : FifoFileCache} (h : new ps cap = some s0) :
    WF s0 ∧ s0.page_size = ps ∧ s0.write_page_id = 0 ∧ s0.write_offset = 0 ∧
    2 ≤ s0.pages.length ∧ (∀ i, s0.pages.getD i 0 = 0) := by
  by_cases hc : 0 < ps ∧ cap % ps = 0 ∧ ps < cap
  · rw [new, if_pos hc] at h
    cases h
    obtain ⟨hps, hmod, hlt⟩ := hc
    obtain ⟨k, hk⟩ := Nat.dvd_of_mod_eq_zero hmod
    have hdiv : cap / ps = k := by rw [hk]; exact Nat.mul_div_cancel_left k hps
    have hk2 : 2 ≤ k := by
      rcases Nat.lt_or_ge k 2 with hlt2 | hge
      · exfalso
        have hmul : ps * k ≤ ps * 1 := Nat.mul_le_mul_left ps (by omega)
        omega
      · exact hge
    refine ⟨⟨?_, ?_, ?_, ?_⟩, rfl, rfl, rfl, ?_, fun i => getD_replicate _ i⟩ <;>
      simp [List.length_replicate, hdiv] <;> omega
  · rw [new, if_neg hc] at h
    exact absurd h (by simp)

/-- The key reachability invariant behind receipts' versions: whenever the
cursor sits on a page other than page 0, that page's version has already
been bumped at least once (the cursor only enters a page via `write_move`,
which bumps first). -/
abbrev VersionInv (s : FifoFileCache) : Prop :=
  1 ≤ s.write_page_id → 1 ≤ s.pages.getD s.write_page_id 0

lemma writeRaw_versionInv {s s1 : FifoFileCache} {d : List Nat} {r : WriteResponse}
    (hWF : WF s) (hInv : VersionInv s) (hw : writeRaw s d = some (s1, r)) :
    VersionInv s1 := by
  have hlen := writeRaw_length_le hw
  obtain ⟨s1', r', heq, -, -, -, hpages, hwpid, -, -, -, -, -, -⟩ :=
    writeRaw_spec hWF hlen
  rw [hw, Option.some.injEq, Prod.mk.injEq] at heq
  obtain ⟨h1, -⟩ := heq
  subst h1
  intro hge
  rw [hwpid] at hge
  rw [hpages, hwpid]
  by_cases hadv : s.page_size < s.write_offset + d.length
  · rw [write_move_of_over hadv]
    dsimp only
    rw [getD_set_self _ (Nat.mod_lt _ hWF.1)]
    omega
  · rw [write_move_of_fit hadv] at hge ⊢
    exact hInv hge

lemma writeRawList_versionInv {ds : List (List Nat)} {s s' : FifoFileCache}
    (hWF : WF s) (hInv : VersionInv s) (h : writeRawList s ds = some s') :
    VersionInv s' := by
  induction ds generalizing s with
  | nil => rw [writeRawList] at h; cases h; exact hInv
  | cons d ds ih =>
    rw [writeRawList] at h
    cases hw : writeRaw s d with
    | none => rw [hw] at h; cases h
    | some p =>
      obtain ⟨s1, r⟩ := p
      rw [hw] at h
      have hlen := writeRaw_length_le hw
      obtain ⟨s1', r', heq, hWF1, -, -, -, -, -, -, -, -, -, -⟩ :=
        writeRaw_spec hWF hlen
      rw [hw, Option.some.injEq, Prod.mk.injEq] at heq
      obtain ⟨h1, -⟩ := heq
      subst h1
      exact ih hWF1 (writeRaw_versionInv hWF hInv hw) h

/-- A fresh two-page cache with page size 8, as built by `new 8 16`
(scenario S2 of the spec and the source's `test_read_write`). -/
def sample0 : FifoFileCache :=
  { pages := [0, 0], page_size := 8, write_page_id := 0, write_offset := 0,
    filePos := 0, file := fun _ => 0 }

/-- A state whose current page is exactly full (offset 8 of 8). -/
def sampleFull : FifoFileCache :=
  { pages := [0, 0], page_size := 8, write_page_id := 0, write_offset := 8,
    filePos := 8, file := fun _ => 0 }

/-- A state in which page 0 has already been bumped once. -/
def sampleStale : FifoFileCache :=
  { pages := [1, 0], page_size := 8, write_page_id := 0, write_offset := 0,
    filePos := 0, file := fun _ => 0 }

/-- 123 as a 64-bit value. -/
def v123 : Fin (2 ^ 64) := ⟨123, by norm_num⟩

/-- 456 as a 64-bit value. -/
def v456 : Fin (2 ^ 64) := ⟨456, by norm_num⟩

/-- 789 as a 64-bit value. -/
def v789 : Fin (2 ^ 64) := ⟨789, by norm_num⟩

/-- State and receipt after the first write of scenario S2. -/
def c5step1 : FifoFileCache × WriteResponse :=
  (write u64Codec sample0 v123).getD default

/-- State and receipt after the second write of scenario S2. -/
def c5step2 : FifoFileCache × WriteResponse :=
  (write u64Codec c5step1.1 v456).getD default

/-- State and receipt after the third write of scenario S2. -/
def c5step3 : FifoFileCache × WriteResponse :=
  (write u64Codec c5step2.1 v789).getD default

lemma readBuffer_of_write {V : Type} {c : Codec V} {s s' : FifoFileCache}
    {r : WriteResponse} {v : V}
    (hps : s'.page_size = s.page_size)
    (hrlen : r.length = (c.serialize v).length)
    (hfile : s'.file =
      writeBytes s.file (r.page_id * s.page_size + r.page_offset) (c.serialize v)) :
    readBuffer s' r = c.serialize v := by
  rw [readBuffer, hfile, hps, hrlen]
  calc (List.range (c.serialize v).length).map
        (fun i => writeBytes s.file (r.page_id * s.page_size + r.page_offset)
          (c.serialize v) (r.page_id * s.page_size + r.page_offset + i))
      = (List.range (c.serialize v).length).map (fun i => (c.serialize v).getD i 0) :=
        range_map_congr fun i hi => writeBytes_inside _ _ _ hi
    _ = c.serialize v := range_map_getD _

/-- C1: for every value `v` whose serialized length is at most the page
size, reading the receipt returned by `write v`, with no other write in
between, returns `some v` — the bytes written at the receipt's location
deserialize back to exactly the value written. -/
theorem c1_roundtrip {V : Type} (c : Codec V) (s : FifoFileCache) (v : V)
    (hWF : WF s) (hlen : (c.serialize v).length ≤ s.page_size) :
    ∃ s' r, write c s v = some (s', r) ∧ read c s' r = some (some v) := by
  obtain ⟨s', r, heq, hWF', hps, hplen, hpages, hwpid, hrpid, hroff, hrlen, hrver,
    hgeo, hoff', hfile⟩ := writeRaw_spec hWF hlen
  refine ⟨s', r, heq, ?_⟩
  have hgeom : geomOK s' r := by
    refine ⟨?_, ?_, ?_⟩
    · rw [hps, hrlen]; exact hlen
    · rw [hrpid]; exact hWF'.2.1
    · rw [hps]; exact hgeo
  rw [read, if_pos hgeom]
  dsimp only
  rw [if_neg (fun h => h hrver.symm)]
  rw [readBuffer_of_write hps hrlen hfile, c.round_trip]

/-- C1 witness: a concrete round trip — writing the 8-byte value 123 into a
fresh two-page cache of page size 8 and reading the receipt back yields 123. -/
theorem c1_roundtrip_witness :
    WF sample0 ∧ (u64Codec.serialize v123).length ≤ sample0.page_size ∧
    ∃ s' r, write u64Codec sample0 v123 = some (s', r) ∧
      read u64Codec s' r = some (some v123) :=
  ⟨by decide, by decide, c1_roundtrip u64Codec sample0 v123 (by decide) (by decide)⟩

/-- C2: for a geometrically valid receipt, `read` misses (returns the
defined miss `some none`, not the error `none`) exactly when the page's
current version differs from the receipt's, and when the versions agree it
returns the value deserialized from the bytes it just read (a
deserialization failure being the fatal `none`). -/
theorem c2_version_check {V : Type} (c : Codec V) (s : FifoFileCache)
    (r : WriteResponse) (hg : geomOK s r) :
    (s.pages.getD r.page_id 0 ≠ r.version → read c s r = some none) ∧
    (s.pages.getD r.page_id 0 = r.version →
      read c s r = Option.map some (c.deserialize (readBuffer s r))) := by
  constructor
  · intro hne
    rw [read, if_pos hg]
    dsimp only
    rw [if_pos hne]
  · intro heq
    rw [read, if_pos hg]
    dsimp only
    rw [if_neg (fun h => h heq)]
    cases c.deserialize (readBuffer s r) <;> rfl

/-- C2 witness: on a state whose page 0 has version 1, the receipt
`{0, 0, 0, 8}` is geometrically valid; its version differs, so `read`
returns the miss, and a matching-version receipt returns the deserialized
buffer. -/
theorem c2_version_check_witness :
    geomOK sampleStale (⟨0, 0, 0, 8⟩ : WriteResponse) ∧
    ((sampleStale.pages.getD 0 0 ≠ 0 →
        read u64Codec sampleStale ⟨0, 0, 0, 8⟩ = some none) ∧
     (sampleStale.pages.getD 0 0 = 0 →
        read u64Codec sampleStale ⟨0, 0, 0, 8⟩ =
          Option.map some (u64Codec.deserialize
            (readBuffer sampleStale ⟨0, 0, 0, 8⟩)))) :=
  ⟨by decide, c2_version_check u64Codec sampleStale ⟨0, 0, 0, 8⟩ (by decide)⟩

/-- C3: once the version of a receipt's page exceeds the receipt's version,
any sequence of further writes keeps it that way (versions only grow), so
every subsequent `read` of that receipt returns the miss. -/
theorem c3_staleness {V : Type} (c : Codec V) (s s' : FifoFileCache)
    (r : WriteResponse) (ds : List (List Nat)) (hWF : WF s)
    (hg : geomOK s r) (hstale : r.version < s.pages.getD r.page_id 0)
    (htr : writeRawList s ds = some s') :
    read c s' r = some none := by
  obtain ⟨hWF', hps, hplen, hmono⟩ := writeRawList_pres hWF htr
  have hg' : geomOK s' r := by
    obtain ⟨h1, h2, h3⟩ := hg
    exact ⟨by rw [hps]; exact h1, by rw [hplen]; exact h2, by rw [hps]; exact h3⟩
  have hv : r.version < s'.pages.getD r.page_id 0 :=
    lt_of_lt_of_le hstale (hmono r.page_id)
  rw [read, if_pos hg']
  dsimp only
  rw [if_pos (by omega : s'.pages.getD r.page_id 0 ≠ r.version)]

/-- C3 witness: page 0 of `sampleStale` is at version 1, so the stale
receipt `{0, 0, 0, 8}` still misses after a further (empty) batch of
writes. -/
theorem c3_staleness_witness :
    WF sampleStale ∧ geomOK sampleStale (⟨0, 0, 0, 8⟩ : WriteResponse) ∧
    (⟨0, 0, 0, 8⟩ : WriteResponse).version < sampleStale.pages.getD 0 0 ∧
    writeRawList sampleStale [] = some sampleStale ∧
    read u64Codec sampleStale ⟨0, 0, 0, 8⟩ = some none :=
  ⟨by decide, by decide, by decide, rfl,
    c3_staleness u64Codec sampleStale sampleStale ⟨0, 0, 0, 8⟩ []
      (by decide) (by decide) (by decide) rfl⟩

/-- C4: when the serialized size does not fit in the current page, `write`
advances before writing a byte: it moves to `next = (write_page_id + 1) mod N`,
bumps `versions[next]` by exactly 1, resets the offset to 0, seeks to
`next * page_size`, writes the bytes there, and stamps the receipt with the
post-bump version of the new write page. -/
theorem c4_advance {V : Type} (c : Codec V) (s : FifoFileCache) (v : V)
    (hWF : WF s) (hlen : (c.serialize v).length ≤ s.page_size)
    (hover : s.page_size < s.write_offset + (c.serialize v).length) :
    ∃ s' r, write c s v = some (s', r) ∧
      r.page_id = (s.write_page_id + 1) % s.pages.length ∧
      r.page_offset = 0 ∧
      r.length = (c.serialize v).length ∧
      r.version = s.pages.getD ((s.write_page_id + 1) % s.pages.length) 0 + 1 ∧
      s'.pages = s.pages.set ((s.write_page_id + 1) % s.pages.length)
        (s.pages.getD ((s.write_page_id + 1) % s.pages.length) 0 + 1) ∧
      s'.write_page_id = (s.write_page_id + 1) % s.pages.length ∧
      s'.write_offset = (c.serialize v).length ∧
      s'.filePos = ((s.write_page_id + 1) % s.pages.length) * s.page_size +
        (c.serialize v).length ∧
      s'.file = writeBytes s.file
        (((s.write_page_id + 1) % s.pages.length) * s.page_size) (c.serialize v) := by
  have hmv := write_move_of_over hover
  obtain ⟨s', r, heq, hWF', hps, hplen, hpages, hwpid, hrpid, hroff, hrlen, hrver,
    hgeo, hoff', hfile⟩ := writeRaw_spec hWF hlen
  have hnext_pages : (write_move s (c.serialize v).length).pages =
      s.pages.set ((s.write_page_id + 1) % s.pages.length)
        (s.pages.getD ((s.write_page_id + 1) % s.pages.length) 0 + 1) := by
    rw [hmv]
  have hnext_wpid : (write_move s (c.serialize v).length).write_page_id =
      (s.write_page_id + 1) % s.pages.length := by rw [hmv]
  have hnext_woff : (write_move s (c.serialize v).length).write_offset = 0 := by
    rw [hmv]
  have h1 : r.page_id = (s.write_page_id + 1) % s.pages.length :=
    (hrpid.trans hwpid).trans hnext_wpid
  have h2 : r.page_offset = 0 := hroff.trans hnext_woff
  have h5 : s'.pages = s.pages.set ((s.write_page_id + 1) % s.pages.length)
      (s.pages.getD ((s.write_page_id + 1) % s.pages.length) 0 + 1) :=
    hpages.trans hnext_pages
  have h6 : s'.write_page_id = (s.write_page_id + 1) % s.pages.length :=
    hwpid.trans hnext_wpid
  have h4 : r.version =
      s.pages.getD ((s.write_page_id + 1) % s.pages.length) 0 + 1 := by
    rw [hrver, h5, h1]
    exact getD_set_self _ (Nat.mod_lt _ hWF.1)
  have h7 : s'.write_offset = (c.serialize v).length := by
    rw [hoff', h2]
    exact Nat.zero_add _
  have h8 : s'.filePos = ((s.write_page_id + 1) % s.pages.length) * s.page_size +
      (c.serialize v).length := by
    rw [hWF'.2.2.2, h6, hps, h7]
  have h9 : s'.file = writeBytes s.file
      (((s.write_page_id + 1) % s.pages.length) * s.page_size) (c.serialize v) := by
    rw [hfile, h1, h2, Nat.add_zero]
  exact ⟨s', r, heq, h1, h2, hrlen, h4, h5, h6, h7, h8, h9⟩

/-- C4 witness: from a state whose page 0 is full (offset 8 of 8), writing
the 8-byte value 456 advances into page 1, bumps its version 0 → 1, writes
at byte 8, and stamps the receipt with version 1. -/
theorem c4_advance_witness :
    WF sampleFull ∧ (u64Codec.serialize v456).length ≤ sampleFull.page_size ∧
    sampleFull.page_size < sampleFull.write_offset + (u64Codec.serialize v456).length ∧
    ∃ s' r, write u64Codec sampleFull v456 = some (s', r) ∧
      r.page_id = (sampleFull.write_page_id + 1) % sampleFull.pages.length ∧
      r.page_offset = 0 ∧
      r.length = (u64Codec.serialize v456).length ∧
      r.version = sampleFull.pages.getD
        ((sampleFull.write_page_id + 1) % sampleFull.pages.length) 0 + 1 ∧
      s'.pages = sampleFull.pages.set
        ((sampleFull.write_page_id + 1) % sampleFull.pages.length)
        (sampleFull.pages.getD
          ((sampleFull.write_page_id + 1) % sampleFull.pages.length) 0 + 1) ∧
      s'.write_page_id = (sampleFull.write_page_id + 1) % sampleFull.pages.length ∧
      s'.write_offset = (u64Codec.serialize v456).length ∧
      s'.filePos = ((sampleFull.write_page_id + 1) % sampleFull.pages.length) *
        sampleFull.page_size + (u64Codec.serialize v456).length ∧
      s'.file = writeBytes sampleFull.file
        (((sampleFull.write_page_id + 1) % sampleFull.pages.length) *
          sampleFull.page_size) (u64Codec.serialize v456) :=
  ⟨by decide, by decide, by decide,
    c4_advance u64Codec sampleFull v456 (by decide) (by decide) (by decide)⟩

/-- C6: a write that exactly fills the current page (offset equals the page
size afterwards) causes no eviction during that call: same page, no version
bumped, and the receipt just issued matches the page's current version. -/
theorem c6_exact_fill {V : Type} (c : Codec V) (s : FifoFileCache) (v : V)
    (hWF : WF s) (hfit : s.write_offset + (c.serialize v).length = s.page_size) :
    ∃ s' r, write c s v = some (s', r) ∧
      s'.pages = s.pages ∧
      s'.write_page_id = s.write_page_id ∧
      s'.write_offset = s.page_size ∧
      r.page_id = s.write_page_id ∧
      r.page_offset = s.write_offset ∧
      r.version = s.pages.getD s.write_page_id 0 ∧
      s'.pages.getD r.page_id 0 = r.version := by
  have hlen : (c.serialize v).length ≤ s.page_size := by omega
  have hnadv : ¬ s.page_size < s.write_offset + (c.serialize v).length := by omega
  have hmv := write_move_of_fit hnadv
  obtain ⟨s', r, heq, hWF', hps, hplen, hpages, hwpid, hrpid, hroff, hrlen, hrver,
    hgeo, hoff', hfile⟩ := writeRaw_spec hWF hlen
  have h1 : s'.pages = s.pages := hpages.trans (by rw [hmv])
  have h2 : s'.write_page_id = s.write_page_id := hwpid.trans (by rw [hmv])
  have h5 : r.page_offset = s.write_offset := hroff.trans (by rw [hmv])
  have h3 : s'.write_offset = s.page_size := by rw [hoff', h5]; exact hfit
  have h4 : r.page_id = s.write_page_id := hrpid.trans h2
  have h6 : r.version = s.pages.getD s.write_page_id 0 := by
    rw [hrver, h1, h4]
  have h7 : s'.pages.getD r.page_id 0 = r.version := hrver.symm
  exact ⟨s', r, heq, h1, h2, h3, h4, h5, h6, h7⟩

/-- C6 witness: writing the 8-byte value 123 into a fresh page of size 8
exactly fills it; no version is bumped and the receipt stays valid. -/
theorem c6_exact_fill_witness :
    WF sample0 ∧
    sample0.write_offset + (u64Codec.serialize v123).length = sample0.page_size ∧
    ∃ s' r, write u64Codec sample0 v123 = some (s', r) ∧
      s'.pages = sample0.pages ∧
      s'.write_page_id = sample0.write_page_id ∧
      s'.write_offset = sample0.page_size ∧
      r.page_id = sample0.write_page_id ∧
      r.page_offset = sample0.write_offset ∧
      r.version = sample0.pages.getD sample0.write_page_id 0 ∧
      s'.pages.getD r.page_id 0 = r.version :=
  ⟨by decide, by decide, c6_exact_fill u64Codec sample0 v123 (by decide) (by decide)⟩

/-- C7: no receipt straddles a page boundary (`page_offset + length ≤ P`),
and the write cursor's offset never exceeds the page size after any
operation. -/
theorem c7_no_straddle {V : Type} (c : Codec V) (s : FifoFileCache) (v : V)
    (hWF : WF s) (hlen : (c.serialize v).length ≤ s.page_size) :
    (∃ s' r, write c s v = some (s', r) ∧
      r.page_offset + r.length ≤ s.page_size ∧ WF s' ∧
      s'.write_offset ≤ s'.page_size) ∧
    (∀ ds s₂, writeRawList s ds = some s₂ → s₂.write_offset ≤ s₂.page_size) := by
  constructor
  · obtain ⟨s', r, heq, hWF', hps, hplen, hpages, hwpid, hrpid, hroff, hrlen, hrver,
      hgeo, hoff', hfile⟩ := writeRaw_spec hWF hlen
    exact ⟨s', r, heq, hgeo, hWF', hWF'.2.2.1⟩
  · intro ds s₂ htr
    exact ((writeRawList_pres hWF htr).1).2.2.1

/-- C7 witness: the receipt of a concrete write of 123 into the fresh cache
satisfies `page_offset + length ≤ 8` and the cursor bound is preserved. -/
theorem c7_no_straddle_witness :
    WF sample0 ∧ (u64Codec.serialize v123).length ≤ sample0.page_size ∧
    ((∃ s' r, write u64Codec sample0 v123 = some (s', r) ∧
      r.page_offset + r.length ≤ sample0.page_size ∧ WF s' ∧
      s'.write_offset ≤ s'.page_size) ∧
    (∀ ds s₂, writeRawList sample0 ds = some s₂ →
      s₂.write_offset ≤ s₂.page_size)) :=
  ⟨by decide, by decide, c7_no_straddle u64Codec sample0 v123 (by decide) (by decide)⟩

/-- C9: a single `write` touches at most one version counter: on an advance
it bumps exactly the advanced-into page by 1 and leaves every other page's
version unchanged; with no advance the whole version vector is unchanged. -/
theorem c9_version_frame {V : Type} (c : Codec V) (s : FifoFileCache) (v : V)
    (hWF : WF s) (hlen : (c.serialize v).length ≤ s.page_size) :
    ∃ s' r, write c s v = some (s', r) ∧
      (s.page_size < s.write_offset + (c.serialize v).length →
        s'.pages.getD ((s.write_page_id + 1) % s.pages.length) 0 =
          s.pages.getD ((s.write_page_id + 1) % s.pages.length) 0 + 1 ∧
        ∀ j, j ≠ (s.write_page_id + 1) % s.pages.length →
          s'.pages.getD j 0 = s.pages.getD j 0) ∧
      (¬ s.page_size < s.write_offset + (c.serialize v).length →
        s'.pages = s.pages) := by
  obtain ⟨s', r, heq, hWF', hps, hplen, hpages, hwpid, hrpid, hroff, hrlen, hrver,
    hgeo, hoff', hfile⟩ := writeRaw_spec hWF hlen
  refine ⟨s', r, heq, ?_, ?_⟩
  · intro hover
    have h5 := hpages.trans (by rw [write_move_of_over hover] :
      (write_move s (c.serialize v).length).pages =
        s.pages.set ((s.write_page_id + 1) % s.pages.length)
          (s.pages.getD ((s.write_page_id + 1) % s.pages.length) 0 + 1))
    constructor
    · rw [h5]
      exact getD_set_self _ (Nat.mod_lt _ hWF.1)
    · intro j hj
      rw [h5]
      exact getD_set_ne _ _ _ _ fun h => hj h.symm
  · intro hnadv
    exact hpages.trans (by rw [write_move_of_fit hnadv])

/-- C9 witness: the non-advancing write of 123 into the fresh cache leaves
both version counters untouched (and the advance clause holds vacuously). -/
theorem c9_version_frame_witness :
    WF sample0 ∧ (u64Codec.serialize v123).length ≤ sample0.page_size ∧
    ∃ s' r, write u64Codec sample0 v123 = some (s', r) ∧
      (sample0.page_size < sample0.write_offset + (u64Codec.serialize v123).length →
        s'.pages.getD ((sample0.write_page_id + 1) % sample0.pages.length) 0 =
          sample0.pages.getD
            ((sample0.write_page_id + 1) % sample0.pages.length) 0 + 1 ∧
        ∀ j, j ≠ (sample0.write_page_id + 1) % sample0.pages.length →
          s'.pages.getD j 0 = sample0.pages.getD j 0) ∧
      (¬ sample0.page_size <
          sample0.write_offset + (u64Codec.serialize v123).length →
        s'.pages = sample0.pages) :=
  ⟨by decide, by decide,
    c9_version_frame u64Codec sample0 v123 (by decide) (by decide)⟩

/-- C5 counterexample: in scenario S2 (`P = 8`, `N = 2`, writes 123, 456,
789), the second write advances into page 1 and bumps its version before
writing, so its receipt carries version 1 — not version 0 as the claim's
`{1, 0, 0, 8}` states. -/
theorem c5_scenario_counterexample :
    new 8 16 = some sample0 ∧
    write u64Codec sample0 v123 = some c5step1 ∧
    write u64Codec c5step1.1 v456 = some c5step2 ∧
    c5step2.2.version = 1 ∧ ¬ c5step2.2.version = 0 :=
  ⟨rfl, rfl, rfl, by decide, by decide⟩

/-- C5 (amended): with `P = 8`, `N = 2`, the three consecutive writes of
the 8-byte values 123, 456, 789 into a fresh cache return the receipts
`{0, 0, 0, 8}`, `{1, 0, 1, 8}` and `{0, 0, 1, 8}` (the second write enters
page 1 and is stamped with its freshly bumped version 1), and reading the
first receipt afterwards returns the miss. -/
theorem c5_scenario_amended :
    new 8 16 = some sample0 ∧
    write u64Codec sample0 v123 = some c5step1 ∧
      c5step1.2 = ⟨0, 0, 0, 8⟩ ∧
    write u64Codec c5step1.1 v456 = some c5step2 ∧
      c5step2.2 = ⟨1, 0, 1, 8⟩ ∧
    write u64Codec c5step2.1 v789 = some c5step3 ∧
      c5step3.2 = ⟨0, 0, 1, 8⟩ ∧
    read u64Codec c5step3.1 c5step1.2 = some none :=
  ⟨rfl, rfl, by decide, rfl, by decide, rfl, by decide, by decide⟩

/-- C8: construction succeeds exactly when the page size is at least 1, the
capacity is a positive multiple of the page size, and the page count
`capacity / page_size` is at least 2; otherwise it fails fast. -/
theorem c8_constructor (page_size capacity : Nat) :
    (∃ s, new page_size capacity = some s) ↔
    (1 ≤ page_size ∧ capacity % page_size = 0 ∧ 0 < capacity ∧
      2 ≤ capacity / page_size) := by
  constructor
  · rintro ⟨s, hs⟩
    by_cases hc : 0 < page_size ∧ capacity % page_size = 0 ∧ page_size < capacity
    · obtain ⟨hps, hmod, hlt⟩ := hc
      obtain ⟨k, hk⟩ := Nat.dvd_of_mod_eq_zero hmod
      have hdiv : capacity / page_size = k := by
        rw [hk]; exact Nat.mul_div_cancel_left k hps
      have hk2 : 2 ≤ k := by
        rcases Nat.lt_or_ge k 2 with hlt2 | hge
        · exfalso
          have hmul : page_size * k ≤ page_size * 1 :=
            Nat.mul_le_mul_left page_size (by omega)
          omega
        · exact hge
      exact ⟨hps, hmod, by omega, by rw [hdiv]; exact hk2⟩
    · rw [new, if_neg hc] at hs
      exact absurd hs (by simp)
  · rintro ⟨h1, h2, h3, h4⟩
    have hlt : page_size < capacity := by
      obtain ⟨k, hk⟩ := Nat.dvd_of_mod_eq_zero h2
      have hdiv : capacity / page_size = k := by
        rw [hk]; exact Nat.mul_div_cancel_left k h1
      rw [hdiv] at h4
      have hmul : page_size * 2 ≤ page_size * k := Nat.mul_le_mul_left page_size h4
      omega
    exact ⟨_, by rw [new, if_pos ⟨h1, h2, hlt⟩]⟩

/-- C10: on any cache reachable from construction, every receipt issued
for a page other than page 0 carries a version of at least 1, because the
cursor's first entry into such a page bumped its version before anything
was written there. -/
theorem c10_nonzero_version {V : Type} (c : Codec V) (ps cap : Nat)
    (s0 s : FifoFileCache) (ds : List (List Nat)) (v : V)
    (h0 : new ps cap = some s0) (htr : writeRawList s0 ds = some s)
    (hlen : (c.serialize v).length ≤ s.page_size) :
    ∃ s' r, write c s v = some (s', r) ∧ (1 ≤ r.page_id → 1 ≤ r.version) := by
  obtain ⟨hWF0, -, hwid0, -, -, -⟩ := new_spec h0
  have hInv0 : VersionInv s0 := fun h => absurd h (by omega)
  have hWF := (writeRawList_pres hWF0 htr).1
  have hInv : VersionInv s := writeRawList_versionInv hWF0 hInv0 htr
  obtain ⟨s', r, heq, hWF', hps, hplen, hpages, hwpid, hrpid, hroff, hrlen, hrver,
    hgeo, hoff', hfile⟩ := writeRaw_spec hWF hlen
  refine ⟨s', r, heq, fun hpid => ?_⟩
  rw [hrver, hpages, hrpid, hwpid]
  rw [hrpid, hwpid] at hpid
  by_cases hadv : s.page_size < s.write_offset + (c.serialize v).length
  · rw [write_move_of_over hadv]
    dsimp only
    rw [getD_set_self _ (Nat.mod_lt _ hWF.1)]
    omega
  · rw [write_move_of_fit hadv] at hpid ⊢
    exact hInv hpid

/-- C10 witness: writing 123 into the freshly constructed cache yields a
receipt whose version is at least 1 whenever its page id is (here the
implication holds vacuously: the first receipt is for page 0). -/
theorem c10_nonzero_version_witness :
    new 8 16 = some sample0 ∧
    writeRawList sample0 [] = some sample0 ∧
    (u64Codec.serialize v123).length ≤ sample0.page_size ∧
    ∃ s' r, write u64Codec sample0 v123 = some (s', r) ∧
      (1 ≤ r.page_id → 1 ≤ r.version) :=
  ⟨rfl, rfl, by decide,
    c10_nonzero_version u64Codec 8 16 sample0 sample0 [] v123 rfl rfl (by decide)⟩

end Rainbow
